import Mathlib

/-!
Verification of the ToolBox TODO manager core (final modular version under
`TODO/todo_manager/`): the in-memory document model (`todo_manager.py`) and
the text codec (`file_io.py`).

Modelling conventions:
* A Python `dict[str, list[str]]` (`Section`) is an insertion-ordered
  association list `List (String × List String)`; dict assignment keeps the
  position of an existing key and appends new keys at the end, which
  `setEntry` mirrors.  Keys of a real dict are unique, so removal of a key
  (`dict.pop`) is modelled by filtering out the key.
* Python strings are Lean `String`s; the string primitives used by the code
  (`str.strip`, `str.startswith`, slicing, `str.lower`, the regexes
  `^\d+\.\s(.*)$` and substring tests, and `int(...)`) are re-implemented
  over `String.data`.  Whitespace and digit classes are the ASCII ones; the
  Unicode extensions of Python's `str.strip`/`\s`/`\d`/`str.lower` are not
  modelled.
* Interactive input (`input(...)` inside `_check_list_name`, the yes/no
  `select_option`) is passed in explicitly as a `Resolver` / `Bool`
  argument, following the spec's port abstraction (§9 of the spec).
* Functions that print and return `None` in Python are modelled as
  returning the new state together with an `Outcome` naming which message
  path was taken (`success`, or the specific error/abort message).
* The file is modelled as its list of lines (the segments between the
  `"\n"` characters that `write_file` emits); reading strips each line.
-/

set_option autoImplicit false

namespace TodoSpec

/-! ### Python string primitives over `List Char` -/

/-- ASCII whitespace as recognized by Python's `str.strip` and `\s`. -/
def isWS (c : Char) : Bool :=
  c == ' ' || c == '\t' || c == '\n' || c == '\r' || c == '\x0b' || c == '\x0c'

/-- `str.strip()` on the character list: drop whitespace from both ends. -/
def stripL (l : List Char) : List Char :=
  ((l.dropWhile isWS).reverse.dropWhile isWS).reverse

/-- Python `str.strip()`. -/
def pstrip (s : String) : String := ⟨stripL s.data⟩

/-- Boolean list-prefix test (for `str.startswith`). -/
def isPrefixB : List Char → List Char → Bool
  | [], _ => true
  | _ :: _, [] => false
  | a :: as, b :: bs => a == b && isPrefixB as bs

/-- Python `s.startswith(pre)`. -/
def startsWithP (s pre : String) : Bool := isPrefixB pre.data s.data

/-- Python slicing `s[n:]` (by characters). -/
def dropChars (n : Nat) (s : String) : String := ⟨s.data.drop n⟩

/-- Boolean contiguous-sublist test (for Python's `in` on strings). -/
def isInfixB (needle : List Char) : List Char → Bool
  | [] => needle.isEmpty
  | c :: rest => isPrefixB needle (c :: rest) || isInfixB needle rest

/-- Python `str.lower()` (ASCII case folding). -/
def pylower (s : String) : String := ⟨s.data.map Char.toLower⟩

/-- Numeric value of a digit string (used by the model of `int(...)`). -/
def digitsToNat (l : List Char) : Nat :=
  l.foldl (fun acc c => acc * 10 + (c.toNat - 48)) 0

/-- All characters are ASCII digits and there is at least one. -/
def allDigits (l : List Char) : Bool := !l.isEmpty && l.all Char.isDigit

/-- Python `int(s)` on a string: optional surrounding whitespace, optional
sign, then decimal digits; anything else raises `ValueError` (`none` here).
(Python also accepts `_` digit grouping, which is not modelled; this only
affects which interactive selections abort.) -/
def pyParseInt (s : String) : Option Int :=
  match stripL s.data with
  | '-' :: rest => if allDigits rest then some (-(digitsToNat rest : Int)) else none
  | '+' :: rest => if allDigits rest then some ((digitsToNat rest : Int)) else none
  | l => if allDigits l then some ((digitsToNat l : Int)) else none

/-! ### The document model state (`types.Section`, `TodoManager`) -/

/-- `Section = dict[str, list[str]]`: insertion-ordered map from list name
to task sequence. -/
abbrev Section := List (String × List String)

/-- The keys of a section, in insertion order. -/
def keysOf (s : Section) : List String := s.map Prod.fst

/-- Python `name in section`. -/
def hasKey (s : Section) (n : String) : Bool := s.any (fun e => e.1 == n)

/-- Python `section[name]` (defaulting to `[]`; every use in the code is
guarded by a membership check). -/
def getD (s : Section) (n : String) : List String :=
  match s.find? (fun e => e.1 == n) with
  | some e => e.2
  | none => []

/-- Python `section[name] = v`: overwrite in place if the key exists
(keeping its position), otherwise append the new key at the end. -/
def setEntry : Section → String → List String → Section
  | [], n, v => [(n, v)]
  | e :: rest, n, v => if e.1 == n then (n, v) :: rest else e :: setEntry rest n v

/-- Python `section.pop(name)` (the removal part; keys are unique). -/
def eraseKey (s : Section) (n : String) : Section :=
  s.filter (fun e => !(e.1 == n))

/-- Python `section[name].append(t)` for an existing key. -/
def appendTask : Section → String → String → Section
  | [], _, _ => []
  | e :: rest, n, t => if e.1 == n then (e.1, e.2 ++ [t]) :: rest else e :: appendTask rest n t

/-- The mutable state of `TodoManager`: its two sections. -/
structure TMState where
  todoLists : Section
  doneLists : Section
deriving DecidableEq

/-! ### Interactive resolution (`_match_list_name`, `_check_list_name`) -/

/-- The answers the interactive prompts inside `_check_list_name` would
receive: the raw `input()` text for the numeric selection, and the yes/no
answer of `select_option` for creation confirmation. -/
structure Resolver where
  selectionText : String
  confirmCreate : Bool
deriving DecidableEq

/-- `TodoManager._match_list_name`: case-insensitive substring matching of
the query against existing Todo list names, in insertion order. -/
def match_list_name (todo : Section) (list_name : String) : List String :=
  (keysOf todo).filter (fun ex => isInfixB (pylower list_name).data (pylower ex).data)

/-- `TodoManager._check_list_name`: exact hit wins; otherwise fuzzy
supporting selection `1..N`, `0` for creation (when allowed), and abort on
empty/invalid input; with no fuzzy hits, yes/no creation confirmation.
Returns the resolved name, or `""` for abort. -/
def check_list_name (todo : Section) (r : Resolver) (list_name : String)
    (no_create : Bool) : String :=
  if hasKey todo list_name then list_name
  else
    let matched := match_list_name todo list_name
    if !matched.isEmpty then
      let t := pstrip r.selectionText
      if t == "" then ""
      else
        match pyParseInt t with
        | none => ""
        | some sel =>
          if sel == 0 && !no_create then list_name
          else if 1 ≤ sel ∧ sel ≤ (matched.length : Int) then
            matched.getD (sel - 1).toNat ""
          else ""
    else if !no_create then
      if r.confirmCreate then list_name else ""
    else ""

/-! ### Document model operations -/

/-- Which message path an operation took: `success` or the specific
error/abort message it printed. -/
inductive Outcome
  | success
  | cancelled
  | aborted
  | noSuchList
  | invalidTaskNumber (n : Int)
  | invalidNewTaskNumber (n : Int)
  | declined
deriving DecidableEq

/-- `TodoManager._validate_task_number`. -/
def validate_task_number (task_number : Int) (list_size : Nat) : Bool :=
  decide (1 ≤ task_number ∧ task_number ≤ (list_size : Int))

/-- The messages `add_list` can print. -/
inductive AddListMsg
  | noopNotice
  | added
deriving DecidableEq

/-- `TodoManager.add_list`. -/
def add_list (st : TMState) (list_name : String) (quiet : Bool) :
    TMState × List AddListMsg :=
  if hasKey st.todoLists list_name then
    (st, if quiet then [] else [.noopNotice])
  else
    ({ st with todoLists := setEntry st.todoLists list_name [] },
     if quiet then [] else [.added])

/-- `TodoManager.add_task`. -/
def add_task (st : TMState) (r : Resolver) (list_name task : String) :
    TMState × Outcome :=
  let v := check_list_name st.todoLists r list_name false
  if v == "" then (st, .cancelled)
  else
    let st1 := (add_list st v true).1
    ({ st1 with todoLists := appendTask st1.todoLists v task }, .success)

/-- `TodoManager.order_task`.  (`list.insert(i, x)` and our guarded
`List.insertIdx` agree because `new_position - 1` is at most the length of
the list after the `pop`.) -/
def order_task (st : TMState) (r : Resolver) (list_name : String)
    (old_position new_position : Int) : TMState × Outcome :=
  let v := check_list_name st.todoLists r list_name true
  if v == "" then (st, .aborted)
  else
    let tasks := getD st.todoLists v
    if !validate_task_number old_position tasks.length then
      (st, .invalidTaskNumber old_position)
    else if !validate_task_number new_position tasks.length then
      (st, .invalidNewTaskNumber new_position)
    else
      let task := tasks.getD (old_position - 1).toNat ""
      let tasks2 := (tasks.eraseIdx (old_position - 1).toNat).insertIdx
        (new_position - 1).toNat task
      ({ st with todoLists := setEntry st.todoLists v tasks2 }, .success)

/-- `TodoManager._move_task`: source and target sections after the move,
plus the outcome (`True`/`False` in Python, refined by which error). -/
def move_task (source target : Section) (list_name : String)
    (task_number : Int) : Section × Section × Outcome :=
  if !hasKey source list_name then (source, target, .noSuchList)
  else if !validate_task_number task_number (getD source list_name).length then
    (source, target, .invalidTaskNumber task_number)
  else
    let tasks := getD source list_name
    let task := tasks.getD (task_number - 1).toNat ""
    let source2 := setEntry source list_name (tasks.eraseIdx (task_number - 1).toNat)
    let target2 :=
      if hasKey target list_name then appendTask target list_name task
      else setEntry target list_name [task]
    (source2, target2, .success)

/-- `TodoManager._move_list`. -/
def move_list (source target : Section) (list_name : String) :
    Section × Section × Outcome :=
  if !hasKey source list_name then (source, target, .noSuchList)
  else (eraseKey source list_name, setEntry target list_name (getD source list_name),
    .success)

/-- `TodoManager.done_task`. -/
def done_task (st : TMState) (list_name : String) (task_number : Int) :
    TMState × Outcome :=
  let r := move_task st.todoLists st.doneLists list_name task_number
  (⟨r.1, r.2.1⟩, r.2.2)

/-- `TodoManager.restore_task`. -/
def restore_task (st : TMState) (list_name : String) (task_number : Int) :
    TMState × Outcome :=
  let r := move_task st.doneLists st.todoLists list_name task_number
  (⟨r.2.1, r.1⟩, r.2.2)

/-- `TodoManager.done_list`. -/
def done_list (st : TMState) (list_name : String) : TMState × Outcome :=
  let r := move_list st.todoLists st.doneLists list_name
  (⟨r.1, r.2.1⟩, r.2.2)

/-- `TodoManager.restore_list`. -/
def restore_list (st : TMState) (list_name : String) : TMState × Outcome :=
  let r := move_list st.doneLists st.todoLists list_name
  (⟨r.2.1, r.1⟩, r.2.2)

/-- `TodoManager.clear_done_list`; `confirm` is the answer `select_option`
would return when `force` is off. -/
def clear_done_list (st : TMState) (force confirm : Bool) : TMState × Outcome :=
  if force then ({ st with doneLists := [] }, .success)
  else if confirm then ({ st with doneLists := [] }, .success)
  else (st, .declined)

/-- `TodoManager.has_list`: pure lookup, takes no lock on the state and
returns only a `Bool` (it cannot mutate by construction). -/
def has_list (st : TMState) (list_name section_name : String) : Bool :=
  if section_name == "todo" then hasKey st.todoLists list_name
  else if section_name == "done" then hasKey st.doneLists list_name
  else hasKey st.todoLists list_name || hasKey st.doneLists list_name

/-! ### The operations as a single type, for statements quantifying over
"every Document Model operation" -/

/-- One invocation of a mutating Document Model operation, with all the
arguments (and interactive answers) it consumes. -/
inductive Op
  | addTask (r : Resolver) (list_name task : String)
  | orderTask (r : Resolver) (list_name : String) (old_position new_position : Int)
  | doneTask (list_name : String) (task_number : Int)
  | restoreTask (list_name : String) (task_number : Int)
  | doneList (list_name : String)
  | restoreList (list_name : String)
  | clearDone (force confirm : Bool)

/-- Run one operation on a state. -/
def runOp (st : TMState) : Op → TMState × Outcome
  | .addTask r l t => add_task st r l t
  | .orderTask r l o n => order_task st r l o n
  | .doneTask l n => done_task st l n
  | .restoreTask l n => restore_task st l n
  | .doneList l => done_list st l
  | .restoreList l => restore_list st l
  | .clearDone f c => clear_done_list st f c

/-- Every outcome other than `success` reports a failure/abort. -/
def isFailure (o : Outcome) : Bool := !(o == .success)

/-! ### The text codec (`file_io.py`) -/

/-- Decimal digits of a natural number, most significant first
(Python `str(i)` for the nonnegative numbering counter).  The first
argument is structural fuel; `fuel = n` always suffices since the value
shrinks by a factor of ten per step. -/
def natToCharsFuel : Nat → Nat → List Char → List Char
  | 0, n, acc => Char.ofNat (48 + n % 10) :: acc
  | fuel + 1, n, acc =>
    if n < 10 then Char.ofNat (48 + n % 10) :: acc
    else natToCharsFuel fuel (n / 10) (Char.ofNat (48 + n % 10) :: acc)

/-- Python `str(i)` for a natural number. -/
def pyNatRepr (n : Nat) : String := ⟨natToCharsFuel n n []⟩

/-- The lines `f"{i}. {task}"` produced by `enumerate(tasks, start=k)`. -/
def numberLines (k : Nat) : List String → List String
  | [] => []
  | t :: rest => (pyNatRepr k ++ ". " ++ t) :: numberLines (k + 1) rest

/-- The lines `write_file` emits for the lists of one section:
`## <name>`, a blank line, the numbered tasks, a blank line. -/
def sectionLines (s : Section) : List String :=
  s.flatMap (fun e => ("## " ++ e.1) :: "" :: (numberLines 1 e.2 ++ [""]))

/-- `FileIOManager.write_file`, as the list of lines of the file it writes
(the segments between the `"\n"`s; the final `"\n"` just terminates the
last line). -/
def write_file (todo_lists done_lists : Section) : List String :=
  ["# Todo", ""] ++ sectionLines todo_lists ++ ["# Done", ""] ++ sectionLines done_lists

/-- ASCII decimal digit, the `\d` class of the task-numbering regex. -/
def isDigitB (c : Char) : Bool := 48 ≤ c.toNat && c.toNat ≤ 57

/-- The regex `re.match(r"^\d+\.\s(.*)$", line)`: one or more digits, a
period, one whitespace character, then the captured rest of the line. -/
def matchNumTask (line : String) : Option String :=
  let ds := line.data.takeWhile isDigitB
  match line.data.dropWhile isDigitB with
  | '.' :: c :: rest => if !ds.isEmpty && isWS c then some ⟨rest⟩ else none
  | _ => none

/-- The task text a line denotes: the regex capture when the line is
numbered, otherwise the whole (stripped) line — the tolerant fallback. -/
def taskOf (line : String) : String :=
  match matchNumTask line with
  | some captured => captured
  | none => line

/-- Warnings `parse_file` prints. -/
inductive Warn
  | unknownSection (name : String)
  | orphanTask (task : String)
deriving DecidableEq

/-- Which dict the parser's `current_section` variable points at: the
initial anonymous `{}`, `todo_lists`, or `done_lists`. -/
inductive Cursor
  | anon
  | todo
  | done
deriving DecidableEq

/-- The parser's loop state: the two result dicts, the discarded anonymous
dict `current_section` starts out as, which of the three the cursor points
at, the current `list_name`, and the warnings printed so far. -/
structure ParseState where
  todoLists : Section
  doneLists : Section
  anonSec : Section
  cursor : Cursor
  listName : String
  warnings : List Warn
deriving DecidableEq

/-- The dict `current_section` points at. -/
def curSection (st : ParseState) : Section :=
  match st.cursor with
  | .anon => st.anonSec
  | .todo => st.todoLists
  | .done => st.doneLists

/-- Replace the dict `current_section` points at (in-place mutation of the
pointed-to dict). -/
def setCurSection (st : ParseState) (s : Section) : ParseState :=
  match st.cursor with
  | .anon => { st with anonSec := s }
  | .todo => { st with todoLists := s }
  | .done => { st with doneLists := s }

/-- One iteration of the loop in `FileIOManager.parse_file` (the line is
stripped when read, before the loop body runs). -/
def parseLine (st : ParseState) (rawLine : String) : ParseState :=
  let line := pstrip rawLine
  if line.data.isEmpty then st
  else if startsWithP line "# " then
    let section_name := pstrip (dropChars 2 line)
    if section_name == "Todo" then { st with cursor := .todo }
    else if section_name == "Done" then { st with cursor := .done }
    else { st with warnings := st.warnings ++ [.unknownSection section_name] }
  else if startsWithP line "## " then
    let st1 := { st with listName := pstrip (dropChars 3 line) }
    setCurSection st1 (setEntry (curSection st1) st1.listName [])
  else
    let task :=
      match matchNumTask (pstrip line) with
      | some captured => captured
      | none => line
    if !hasKey (curSection st) st.listName then
      { st with warnings := st.warnings ++ [.orphanTask task] }
    else
      setCurSection st (appendTask (curSection st) st.listName task)

/-- What `parse_file` returns (plus the warnings it printed). -/
structure ParseResult where
  todoLists : Section
  doneLists : Section
  warnings : List Warn
deriving DecidableEq

/-- The parser's state at the top of the loop. -/
def initState : ParseState := ⟨[], [], [], .anon, "", []⟩

/-- `FileIOManager.parse_file`, on the list of lines of the file. -/
def parse_file (lines : List String) : ParseResult :=
  let st := lines.foldl parseLine initState
  ⟨st.todoLists, st.doneLists, st.warnings⟩

/-- Appending several tasks in order to one list of a section. -/
def appendTasks (S : Section) (n : String) (ts : List String) : Section :=
  ts.foldl (fun acc t => appendTask acc n t) S

/-- A string that survives the codec unchanged: non-empty, no leading or
trailing whitespace (so the read-time `strip` keeps it), ASCII (the model's
whitespace/digit/case classes agree with Python only on ASCII), and free of
line breaks (so it stays on one line of the file). -/
def cleanStr (s : String) : Prop :=
  s.data ≠ [] ∧ isWS s.data.head! = false ∧ isWS s.data.reverse.head! = false ∧
    (∀ c ∈ s.data, c.toNat < 128) ∧ '\n' ∉ s.data ∧ '\r' ∉ s.data

/-- A section whose list names are unique (as dict keys are) and whose
names and tasks are all clean. -/
def cleanSection (S : Section) : Prop :=
  (keysOf S).Nodup ∧ ∀ e ∈ S, cleanStr e.1 ∧ ∀ t ∈ e.2, cleanStr t

instance decCleanStr (s : String) : Decidable (cleanStr s) := by
  unfold cleanStr
  infer_instance

instance decCleanSection (S : Section) : Decidable (cleanSection S) := by
  unfold cleanSection
  infer_instance

/-- The lines of a hand-written file fragment made of list blocks: for each
entry, a `## name` header line followed by its raw task lines. -/
def anonLines (bs : List (String × List String)) : List String :=
  bs.flatMap (fun e => ("## " ++ e.1) :: e.2)

/-- Simulation relation between two parser states that agree on everything
the remaining parse of a file can observe once a recognized section header
has been seen: equal result dicts and warnings, equal non-anonymous cursor,
and either an equal `list_name` or both result dicts still empty (so a
stale `list_name` cannot be a key of either). -/
def SimR (s1 s2 : ParseState) : Prop :=
  s1.todoLists = s2.todoLists ∧ s1.doneLists = s2.doneLists ∧
  s1.warnings = s2.warnings ∧ s1.cursor = s2.cursor ∧ s1.cursor ≠ .anon ∧
  (s1.listName = s2.listName ∨ (s1.todoLists = [] ∧ s1.doneLists = []))

/-! ### Basic facts about the section operations -/

theorem hasKey_iff_mem_keys {s : Section} {n : String} :
    hasKey s n = true ↔ n ∈ keysOf s := by
  simp [hasKey, keysOf, List.any_eq_true, List.mem_map, beq_iff_eq]

theorem hasKey_cons {e : String × List String} {s : Section} {n : String} :
    hasKey (e :: s) n = (e.1 == n || hasKey s n) := by
  simp [hasKey]

theorem setEntry_of_hasKey_eq_false {s : Section} {n : String}
    (h : hasKey s n = false) (v : List String) :
    setEntry s n v = s ++ [(n, v)] := by
  induction s with
  | nil => rfl
  | cons e rest ih =>
    rw [hasKey_cons, Bool.or_eq_false_iff] at h
    simp only [setEntry]
    rw [if_neg (by simp_all [beq_iff_eq]), ih h.2]
    simp

theorem appendTask_append {s : Section} {n : String}
    (h : hasKey s n = false) (acc : List String) (t : String) :
    appendTask (s ++ [(n, acc)]) n t = s ++ [(n, acc ++ [t])] := by
  induction s with
  | nil => simp [appendTask]
  | cons e rest ih =>
    rw [hasKey_cons, Bool.or_eq_false_iff] at h
    simp only [List.cons_append, appendTask]
    rw [if_neg (by simp_all [beq_iff_eq])]
    exact congrArg (e :: ·) (ih h.2)

theorem hasKey_appendTask {s : Section} {n m t : String} :
    hasKey (appendTask s n t) m = hasKey s m := by
  induction s with
  | nil => rfl
  | cons e rest ih =>
    simp only [appendTask]
    split <;> simp [hasKey_cons, ih]

theorem hasKey_setEntry {s : Section} {n m : String} (v : List String) :
    hasKey (setEntry s n v) m = (n == m || hasKey s m) := by
  induction s with
  | nil => simp [setEntry, hasKey]
  | cons e rest ih =>
    simp only [setEntry]
    split
    next hh =>
      rw [beq_iff_eq] at hh
      subst hh
      simp [hasKey_cons]
    next hh => simp [hasKey_cons, ih, Bool.or_left_comm]

theorem getD_setEntry_self {s : Section} {n : String} (v : List String) :
    getD (setEntry s n v) n = v := by
  induction s with
  | nil => simp [setEntry, getD]
  | cons e rest ih =>
    simp only [setEntry]
    split
    next hh => simp [getD]
    next hh => simpa [getD, List.find?, hh] using ih

theorem hasKey_eraseKey_self {s : Section} {n : String} :
    hasKey (eraseKey s n) n = false := by
  simp [eraseKey, hasKey, List.any_eq_true, List.mem_filter]

theorem getD_appendTask_self {s : Section} {n t : String}
    (h : hasKey s n = true) :
    getD (appendTask s n t) n = getD s n ++ [t] := by
  induction s with
  | nil => simp [hasKey] at h
  | cons e rest ih =>
    simp only [appendTask]
    split
    next hh => simp [getD, List.find?, hh]
    next hh =>
      rw [Bool.not_eq_true] at hh
      rw [hasKey_cons, hh, Bool.false_or] at h
      simpa [getD, List.find?, hh] using ih h

theorem getD_concat_length (l : List String) (x d : String) :
    (l ++ [x]).getD l.length d = x := by
  induction l with
  | nil => rfl
  | cons a rest ih => simp [ih]

theorem eraseIdx_concat_length (l : List String) (x : String) :
    (l ++ [x]).eraseIdx l.length = l := by
  induction l with
  | nil => rfl
  | cons a rest ih => simp [List.eraseIdx, ih]

theorem getD_of_hasKey_eq_false {s : Section} {n : String}
    (h : hasKey s n = false) : getD s n = [] := by
  unfold getD
  cases hf : s.find? (fun e => e.1 == n) with
  | none => rfl
  | some e =>
    exfalso
    have h1 := List.find?_some hf
    have h2 := List.mem_of_find?_eq_some hf
    have : hasKey s n = true := by
      simp only [hasKey, List.any_eq_true]
      exact ⟨e, h2, h1⟩
    simp [this] at h

theorem eraseIdx_concat_getD (l : List String) (d : String) (h : l ≠ []) :
    l.eraseIdx (l.length - 1) ++ [l.getD (l.length - 1) d] = l := by
  rcases List.eq_nil_or_concat l with rfl | ⟨l2, x, rfl⟩
  · exact absurd rfl h
  · simp only [List.concat_eq_append, List.length_append, List.length_singleton,
      Nat.add_sub_cancel]
    rw [eraseIdx_concat_length, getD_concat_length]

theorem move_task_success {source target : Section} {L : String} {p : Int}
    (hmem : hasKey source L = true)
    (hval : validate_task_number p (getD source L).length = true) :
    move_task source target L p =
      (setEntry source L ((getD source L).eraseIdx (p - 1).toNat),
       (if hasKey target L then
          appendTask target L ((getD source L).getD (p - 1).toNat "")
        else setEntry target L [(getD source L).getD (p - 1).toNat ""]),
       Outcome.success) := by
  simp [move_task, hmem, hval]

theorem done_task_success {st : TMState} {L : String} {p : Int}
    (hmem : hasKey st.todoLists L = true)
    (hval : validate_task_number p (getD st.todoLists L).length = true) :
    done_task st L p =
      (⟨setEntry st.todoLists L ((getD st.todoLists L).eraseIdx (p - 1).toNat),
        if hasKey st.doneLists L then
          appendTask st.doneLists L ((getD st.todoLists L).getD (p - 1).toNat "")
        else setEntry st.doneLists L [(getD st.todoLists L).getD (p - 1).toNat ""]⟩,
       Outcome.success) := by
  rw [done_task, move_task_success hmem hval]

theorem restore_task_success {st : TMState} {L : String} {p : Int}
    (hmem : hasKey st.doneLists L = true)
    (hval : validate_task_number p (getD st.doneLists L).length = true) :
    restore_task st L p =
      (⟨(if hasKey st.todoLists L then
          appendTask st.todoLists L ((getD st.doneLists L).getD (p - 1).toNat "")
        else setEntry st.todoLists L [(getD st.doneLists L).getD (p - 1).toNat ""]),
        setEntry st.doneLists L ((getD st.doneLists L).eraseIdx (p - 1).toNat)⟩,
       Outcome.success) := by
  rw [restore_task, move_task_success hmem hval]

/-! ### Facts about the codec: strings, lines, and folds -/

theorem dropWhile_isWS_cons {a : Char} {t : List Char} (h : isWS a = false) :
    (a :: t).dropWhile isWS = a :: t := by
  simp [List.dropWhile_cons, h]

theorem head!_append_of_ne_nil {l : List Char} (m : List Char) (h : l ≠ []) :
    (l ++ m).head! = l.head! := by
  obtain ⟨a, t, rfl⟩ := List.exists_cons_of_ne_nil h
  rfl

theorem stripL_eq_self {l : List Char} (h1 : l ≠ []) (h2 : isWS l.head! = false)
    (h3 : isWS l.reverse.head! = false) : stripL l = l := by
  have hrev : l.reverse ≠ [] := by simpa using h1
  obtain ⟨b, u, hb⟩ := List.exists_cons_of_ne_nil hrev
  have hwb : isWS b = false := by rw [hb] at h3; exact h3
  have hd : l.dropWhile isWS = l := by
    obtain ⟨a, t, rfl⟩ := List.exists_cons_of_ne_nil h1
    exact dropWhile_isWS_cons h2
  unfold stripL
  rw [hd, hb, dropWhile_isWS_cons hwb, ← hb, List.reverse_reverse]

theorem stripL_shape {a : Char} {mid nd : List Char}
    (ha : isWS a = false) (hnd : nd ≠ []) (hlast : isWS nd.reverse.head! = false) :
    stripL (a :: (mid ++ nd)) = a :: (mid ++ nd) := by
  refine stripL_eq_self (by simp) ha ?_
  have hrw : (a :: (mid ++ nd)).reverse = nd.reverse ++ (mid.reverse ++ [a]) := by
    simp [List.reverse_cons, List.reverse_append, List.append_assoc]
  rw [hrw, head!_append_of_ne_nil _ (by simpa using hnd)]
  exact hlast

theorem mk_data (s : String) : String.mk s.data = s := by
  cases s
  rfl

theorem pstrip_eq_self {s : String} (h : cleanStr s) : pstrip s = s := by
  cases s with
  | mk d =>
    show String.mk (stripL d) = String.mk d
    rw [stripL_eq_self h.1 h.2.1 h.2.2.1]

theorem isDigitB_facts {c : Char} (h : isDigitB c = true) :
    isWS c = false ∧ ('#' == c) = false := by
  simp only [isDigitB, Bool.and_eq_true, decide_eq_true_eq] at h
  have hx : ∀ x : Char, ¬(48 ≤ x.toNat ∧ x.toNat ≤ 57) → (c == x) = false := by
    intro x hxn
    rw [beq_eq_false_iff_ne]
    rintro rfl
    exact hxn h
  constructor
  · simp only [isWS, hx ' ' (by decide), hx '\t' (by decide), hx '\n' (by decide),
      hx '\r' (by decide), hx '\x0b' (by decide), hx '\x0c' (by decide),
      Bool.or_self, Bool.or_false]
  · have hc : (c == '#') = false := hx '#' (by decide)
    rw [beq_eq_false_iff_ne] at hc ⊢
    exact fun he => hc he.symm

theorem digit_char_isDigitB {m : Nat} (h : m < 10) :
    isDigitB (Char.ofNat (48 + m)) = true := by
  interval_cases m <;> decide

theorem natToCharsFuel_eq_append (fuel n : Nat) (acc : List Char) :
    natToCharsFuel fuel n acc = natToCharsFuel fuel n [] ++ acc := by
  induction fuel generalizing n acc with
  | zero => simp [natToCharsFuel]
  | succ fuel ih =>
    simp only [natToCharsFuel]
    by_cases h : n < 10
    · simp [h]
    · simp only [if_neg h]
      rw [ih (n / 10) (Char.ofNat (48 + n % 10) :: acc),
        ih (n / 10) (Char.ofNat (48 + n % 10) :: [])]
      simp

theorem natToCharsFuel_ne_nil (fuel n : Nat) : natToCharsFuel fuel n [] ≠ [] := by
  cases fuel with
  | zero => simp [natToCharsFuel]
  | succ fuel =>
    rw [natToCharsFuel]
    split
    · simp
    · rw [natToCharsFuel_eq_append]
      simp

theorem natToCharsFuel_all_digit (fuel n : Nat) :
    ∀ c ∈ natToCharsFuel fuel n [], isDigitB c = true := by
  induction fuel generalizing n with
  | zero =>
    intro c hc
    simp only [natToCharsFuel, List.mem_singleton] at hc
    subst hc
    exact digit_char_isDigitB (by omega)
  | succ fuel ih =>
    intro c hc
    rw [natToCharsFuel] at hc
    split at hc
    · simp only [List.mem_singleton] at hc
      subst hc
      exact digit_char_isDigitB (by omega)
    · rw [natToCharsFuel_eq_append] at hc
      rcases List.mem_append.mp hc with hc | hc
      · exact ih (n / 10) c hc
      · simp only [List.mem_singleton] at hc
        subst hc
        exact digit_char_isDigitB (by omega)

theorem takeWhile_all_append {p : Char → Bool} {l1 : List Char} (l2 : List Char)
    (h : ∀ c ∈ l1, p c = true) :
    (l1 ++ l2).takeWhile p = l1 ++ l2.takeWhile p := by
  induction l1 with
  | nil => simp
  | cons a t ih =>
    simp only [List.cons_append, List.takeWhile_cons]
    rw [h a (by simp), ih (fun c hc => h c (by simp [hc]))]
    simp

theorem dropWhile_all_append {p : Char → Bool} {l1 : List Char} (l2 : List Char)
    (h : ∀ c ∈ l1, p c = true) :
    (l1 ++ l2).dropWhile p = l2.dropWhile p := by
  induction l1 with
  | nil => simp
  | cons a t ih =>
    simp only [List.cons_append, List.dropWhile_cons]
    rw [h a (by simp), ih (fun c hc => h c (by simp [hc]))]
    simp

theorem curSection_setCurSection (st : ParseState) (s : Section) :
    curSection (setCurSection st s) = s := by
  cases st with
  | mk t d a c ln w => cases c <;> rfl

theorem setCurSection_setCurSection (st : ParseState) (s1 s2 : Section) :
    setCurSection (setCurSection st s1) s2 = setCurSection st s2 := by
  cases st with
  | mk t d a c ln w => cases c <;> rfl

theorem setCurSection_curSection (st : ParseState) :
    setCurSection st (curSection st) = st := by
  cases st with
  | mk t d a c ln w => cases c <;> rfl

theorem listName_setCurSection (st : ParseState) (s : Section) :
    (setCurSection st s).listName = st.listName := by
  cases st with
  | mk t d a c ln w => cases c <;> rfl

theorem cursor_setCurSection (st : ParseState) (s : Section) :
    (setCurSection st s).cursor = st.cursor := by
  cases st with
  | mk t d a c ln w => cases c <;> rfl

theorem warnings_setCurSection (st : ParseState) (s : Section) :
    (setCurSection st s).warnings = st.warnings := by
  cases st with
  | mk t d a c ln w => cases c <;> rfl

theorem curSection_update_listName (st : ParseState) (n : String) :
    curSection { st with listName := n } = curSection st := by
  cases st with
  | mk t d a c ln w => cases c <;> rfl

theorem setCurSection_update_listName (st : ParseState) (n : String) (s : Section) :
    setCurSection { st with listName := n } s
      = { setCurSection st s with listName := n } := by
  cases st with
  | mk t d a c ln w => cases c <;> rfl

theorem parseLine_blank (st : ParseState) : parseLine st "" = st := rfl

theorem parseLine_todo_header (st : ParseState) :
    parseLine st "# Todo" = { st with cursor := .todo } := rfl

theorem parseLine_done_header (st : ParseState) :
    parseLine st "# Done" = { st with cursor := .done } := rfl

theorem data_append (s t : String) : (s ++ t).data = s.data ++ t.data := by
  cases s
  cases t
  rfl

theorem parseLine_list_header {n : String} (st : ParseState) (h : cleanStr n) :
    parseLine st ("## " ++ n) =
      setCurSection { st with listName := n } (setEntry (curSection st) n []) := by
  have hdata : ("## " ++ n).data = '#' :: (['#', ' '] ++ n.data) := by
    cases n
    rfl
  have hstrip : pstrip ("## " ++ n) = "## " ++ n := by
    simp only [pstrip, hdata]
    rw [stripL_shape (by decide) h.1 h.2.2.1, ← hdata, mk_data]
  have hne : ("## " ++ n).data.isEmpty = false := by
    rw [hdata]
    rfl
  have hs1 : startsWithP ("## " ++ n) "# " = false := by
    have hsp : (' ' == '#') = false := by decide
    simp only [startsWithP, hdata]
    simp [isPrefixB, hsp]
  have hs2 : startsWithP ("## " ++ n) "## " = true := by
    simp only [startsWithP, hdata]
    simp [isPrefixB]
  have hdrop : pstrip (dropChars 3 ("## " ++ n)) = n := by
    have h0 : dropChars 3 ("## " ++ n) = n := by
      simp only [dropChars, hdata]
      rw [show ('#' :: (['#', ' '] ++ n.data)).drop 3 = n.data from rfl, mk_data]
    rw [h0, pstrip_eq_self h]
  simp [parseLine, hstrip, hne, hs1, hs2, hdrop, curSection_update_listName]

theorem parseLine_numbered_task {t : String} (st : ParseState) (k : Nat)
    (h : cleanStr t) (hkey : hasKey (curSection st) st.listName = true) :
    parseLine st (pyNatRepr k ++ ". " ++ t) =
      setCurSection st (appendTask (curSection st) st.listName t) := by
  obtain ⟨d0, ds, hds⟩ := List.exists_cons_of_ne_nil (natToCharsFuel_ne_nil k k)
  have halld : ∀ c ∈ d0 :: ds, isDigitB c = true := by
    rw [← hds]
    exact natToCharsFuel_all_digit k k
  have hd0 : isDigitB d0 = true := halld d0 (by simp)
  have hfacts := isDigitB_facts hd0
  have hdata : (pyNatRepr k ++ ". " ++ t).data
      = d0 :: ((ds ++ ['.', ' ']) ++ t.data) := by
    rw [data_append, data_append]
    simp only [pyNatRepr, hds]
    rfl
  have hdata2 : (pyNatRepr k ++ ". " ++ t).data
      = (d0 :: ds) ++ ('.' :: ' ' :: t.data) := by
    rw [hdata]
    simp [List.append_assoc]
  have hstrip : pstrip (pyNatRepr k ++ ". " ++ t) = pyNatRepr k ++ ". " ++ t := by
    simp only [pstrip, hdata]
    rw [stripL_shape hfacts.1 h.1 h.2.2.1, ← hdata, mk_data]
  have hne : (pyNatRepr k ++ ". " ++ t).data.isEmpty = false := by
    rw [hdata]
    rfl
  have hs1 : startsWithP (pyNatRepr k ++ ". " ++ t) "# " = false := by
    simp only [startsWithP, hdata]
    simp [isPrefixB, hfacts.2]
  have hs2 : startsWithP (pyNatRepr k ++ ". " ++ t) "## " = false := by
    simp only [startsWithP, hdata]
    simp [isPrefixB, hfacts.2]
  have hpd : isDigitB '.' = false := by decide
  have hmt : matchNumTask (pyNatRepr k ++ ". " ++ t) = some t := by
    simp only [matchNumTask, hdata2]
    rw [takeWhile_all_append _ halld, dropWhile_all_append _ halld]
    have hws : isWS ' ' = true := by decide
    simp only [List.takeWhile_cons, hpd, List.dropWhile_cons]
    simp [mk_data, hws]
  simp [parseLine, hstrip, hne, hs1, hs2, hmt, hkey]

theorem hasKey_append (s1 s2 : Section) (n : String) :
    hasKey (s1 ++ s2) n = (hasKey s1 n || hasKey s2 n) := by
  simp [hasKey, List.any_append]

theorem appendTasks_concat {S : Section} {n : String} (h : hasKey S n = false) :
    ∀ (ts acc : List String),
      appendTasks (S ++ [(n, acc)]) n ts = S ++ [(n, acc ++ ts)]
  | [], acc => by simp [appendTasks]
  | t :: ts, acc => by
    simp only [appendTasks, List.foldl_cons]
    rw [appendTask_append h acc t]
    have hrec := appendTasks_concat h ts (acc ++ [t])
    simp only [appendTasks] at hrec
    rw [hrec]
    simp

theorem foldl_numberLines {ts : List String} (hts : ∀ t ∈ ts, cleanStr t) :
    ∀ (st : ParseState) (k : Nat), hasKey (curSection st) st.listName = true →
      List.foldl parseLine st (numberLines k ts) =
        setCurSection st (appendTasks (curSection st) st.listName ts) := by
  induction ts with
  | nil =>
    intro st k hkey
    simp [numberLines, appendTasks, setCurSection_curSection]
  | cons t ts ih =>
    intro st k hkey
    simp only [numberLines, List.foldl_cons]
    rw [parseLine_numbered_task st k (hts t (by simp)) hkey]
    rw [ih (fun x hx => hts x (by simp [hx])) _ (k + 1)
      (by rw [curSection_setCurSection, listName_setCurSection, hasKey_appendTask]
          exact hkey)]
    rw [curSection_setCurSection, listName_setCurSection,
      setCurSection_setCurSection]
    simp only [appendTasks, List.foldl_cons]

theorem foldl_block {n : String} {ts : List String} (hn : cleanStr n)
    (hts : ∀ t ∈ ts, cleanStr t) (st : ParseState)
    (hkey : hasKey (curSection st) n = false) :
    List.foldl parseLine st (("## " ++ n) :: "" :: (numberLines 1 ts ++ [""])) =
      setCurSection { st with listName := n } (curSection st ++ [(n, ts)]) := by
  have hsetE : setEntry (curSection st) n [] = curSection st ++ [(n, [])] :=
    setEntry_of_hasKey_eq_false hkey []
  have hlnA : (setCurSection { st with listName := n }
      (setEntry (curSection st) n [])).listName = n := by
    rw [listName_setCurSection]
  have hcurA : curSection (setCurSection { st with listName := n }
      (setEntry (curSection st) n [])) = setEntry (curSection st) n [] :=
    curSection_setCurSection _ _
  have hkeyA : hasKey (curSection (setCurSection { st with listName := n }
      (setEntry (curSection st) n [])))
      (setCurSection { st with listName := n }
        (setEntry (curSection st) n [])).listName = true := by
    rw [hcurA, hlnA, hsetE, hasKey_append]
    simp [hasKey]
  simp only [List.foldl_cons]
  rw [parseLine_list_header st hn, parseLine_blank, List.foldl_append,
    foldl_numberLines hts _ 1 hkeyA]
  simp only [List.foldl_cons, List.foldl_nil, parseLine_blank]
  rw [hcurA, hlnA, hsetE, setCurSection_setCurSection]
  have hconc := appendTasks_concat hkey ts []
  simp only [List.nil_append] at hconc
  rw [hconc]

theorem foldl_sectionLines {S2 : Section}
    (hclean : ∀ e ∈ S2, cleanStr e.1 ∧ ∀ t ∈ e.2, cleanStr t)
    (hnodup : (keysOf S2).Nodup) :
    ∀ st : ParseState, (∀ e ∈ S2, hasKey (curSection st) e.1 = false) →
      ∃ ln : String,
        List.foldl parseLine st (sectionLines S2) =
          setCurSection { st with listName := ln } (curSection st ++ S2) ∧
        (S2 = [] → ln = st.listName) := by
  induction S2 with
  | nil =>
    intro st hk
    refine ⟨st.listName, ?_, fun _ => rfl⟩
    show List.foldl parseLine st (sectionLines []) =
      setCurSection st (curSection st ++ [])
    rw [List.append_nil, setCurSection_curSection]
    simp [sectionLines]
  | cons e S2 ih =>
    intro st hk
    have hnodup2 : (keysOf S2).Nodup := by
      simpa [keysOf] using (List.nodup_cons.mp (by simpa [keysOf] using hnodup)).2
    have hnotmem : e.1 ∉ keysOf S2 := by
      exact (List.nodup_cons.mp (by simpa [keysOf] using hnodup)).1
    have hblock := foldl_block (hclean e (by simp)).1 (hclean e (by simp)).2 st
      (hk e (by simp))
    have hsec : sectionLines (e :: S2)
        = (("## " ++ e.1) :: "" :: (numberLines 1 e.2 ++ [""])) ++ sectionLines S2 := by
      simp [sectionLines]
    rw [hsec, List.foldl_append, hblock]
    have hkeys2 : ∀ e2 ∈ S2,
        hasKey (curSection (setCurSection { st with listName := e.1 }
          (curSection st ++ [(e.1, e.2)]))) e2.1 = false := by
      intro e2 he2
      rw [curSection_setCurSection, hasKey_append]
      have h1 : hasKey (curSection st) e2.1 = false := hk e2 (by simp [he2])
      have h2 : hasKey [(e.1, e.2)] e2.1 = false := by
        simp only [hasKey, List.any_cons, List.any_nil, Bool.or_false]
        rw [beq_eq_false_iff_ne]
        intro heq
        exact hnotmem (heq ▸ List.mem_map.mpr ⟨e2, he2, rfl⟩)
      rw [h1, h2]
      rfl
    obtain ⟨ln2, hrest, -⟩ := ih (fun x hx => hclean x (by simp [hx])) hnodup2
      (setCurSection { st with listName := e.1 } (curSection st ++ [(e.1, e.2)]))
      hkeys2
    refine ⟨ln2, ?_, fun hcon => (List.cons_ne_nil e S2 hcon).elim⟩
    rw [hrest, curSection_setCurSection, ← setCurSection_update_listName,
      setCurSection_setCurSection]
    have happ : (curSection st ++ [(e.1, e.2)]) ++ S2 = curSection st ++ (e :: S2) := by
      rw [List.append_assoc, List.singleton_append]
    rw [happ]

theorem parseLine_orphan {t : String} (st : ParseState) (h : cleanStr t)
    (hhash : t.data.head! ≠ '#')
    (hkey : hasKey (curSection st) st.listName = false) :
    parseLine st t
      = { st with warnings := st.warnings ++ [.orphanTask (taskOf t)] } := by
  obtain ⟨c, rest, hc⟩ := List.exists_cons_of_ne_nil h.1
  have hstrip : pstrip t = t := pstrip_eq_self h
  have hne : t.data.isEmpty = false := by rw [hc]; rfl
  have hbeq : ('#' == c) = false := by
    rw [beq_eq_false_iff_ne]
    intro he
    refine hhash ?_
    rw [hc]
    exact he.symm
  have hs1 : startsWithP t "# " = false := by
    simp only [startsWithP, hc]
    simp [isPrefixB, hbeq]
  have hs2 : startsWithP t "## " = false := by
    simp only [startsWithP, hc]
    simp [isPrefixB, hbeq]
  cases hmt : matchNumTask t with
  | some cpt =>
    have htk : taskOf t = cpt := by simp [taskOf, hmt]
    simp [parseLine, hstrip, hne, hs1, hs2, hmt, hkey, htk]
  | none =>
    have htk : taskOf t = t := by simp [taskOf, hmt]
    simp [parseLine, hstrip, hne, hs1, hs2, hmt, hkey, htk]

theorem parseLine_task_append {t : String} (st : ParseState) (h : cleanStr t)
    (hhash : t.data.head! ≠ '#')
    (hkey : hasKey (curSection st) st.listName = true) :
    parseLine st t
      = setCurSection st (appendTask (curSection st) st.listName (taskOf t)) := by
  obtain ⟨c, rest, hc⟩ := List.exists_cons_of_ne_nil h.1
  have hstrip : pstrip t = t := pstrip_eq_self h
  have hne : t.data.isEmpty = false := by rw [hc]; rfl
  have hbeq : ('#' == c) = false := by
    rw [beq_eq_false_iff_ne]
    intro he
    refine hhash ?_
    rw [hc]
    exact he.symm
  have hs1 : startsWithP t "# " = false := by
    simp only [startsWithP, hc]
    simp [isPrefixB, hbeq]
  have hs2 : startsWithP t "## " = false := by
    simp only [startsWithP, hc]
    simp [isPrefixB, hbeq]
  cases hmt : matchNumTask t with
  | some cpt =>
    have htk : taskOf t = cpt := by simp [taskOf, hmt]
    simp [parseLine, hstrip, hne, hs1, hs2, hmt, hkey, htk]
  | none =>
    have htk : taskOf t = t := by simp [taskOf, hmt]
    simp [parseLine, hstrip, hne, hs1, hs2, hmt, hkey, htk]

theorem parseLine_factor (t d a : Section) (c : Cursor) (ln : String)
    (w : List Warn) (line : String) :
    parseLine ⟨t, d, a, c, ln, w⟩ line =
      { parseLine ⟨t, d, a, c, ln, []⟩ line with
        warnings := w ++ (parseLine ⟨t, d, a, c, ln, []⟩ line).warnings } := by
  cases c with
  | anon =>
    simp only [parseLine, curSection, setCurSection]
    cases h1 : (pstrip line).data.isEmpty with
    | true => simp [h1]
    | false =>
      cases h2 : startsWithP (pstrip line) "# " with
      | true =>
        cases h3 : pstrip (dropChars 2 (pstrip line)) == "Todo" with
        | true => simp [h1, h2, h3]
        | false =>
          cases h4 : pstrip (dropChars 2 (pstrip line)) == "Done" with
          | true => simp [h1, h2, h3, h4]
          | false => simp [h1, h2, h3, h4]
      | false =>
        cases h5 : startsWithP (pstrip line) "## " with
        | true => simp [h1, h2, h5]
        | false =>
          cases h6 : hasKey a ln with
          | true => simp [h1, h2, h5, h6]
          | false => simp [h1, h2, h5, h6]
  | todo =>
    simp only [parseLine, curSection, setCurSection]
    cases h1 : (pstrip line).data.isEmpty with
    | true => simp [h1]
    | false =>
      cases h2 : startsWithP (pstrip line) "# " with
      | true =>
        cases h3 : pstrip (dropChars 2 (pstrip line)) == "Todo" with
        | true => simp [h1, h2, h3]
        | false =>
          cases h4 : pstrip (dropChars 2 (pstrip line)) == "Done" with
          | true => simp [h1, h2, h3, h4]
          | false => simp [h1, h2, h3, h4]
      | false =>
        cases h5 : startsWithP (pstrip line) "## " with
        | true => simp [h1, h2, h5]
        | false =>
          cases h6 : hasKey t ln with
          | true => simp [h1, h2, h5, h6]
          | false => simp [h1, h2, h5, h6]
  | done =>
    simp only [parseLine, curSection, setCurSection]
    cases h1 : (pstrip line).data.isEmpty with
    | true => simp [h1]
    | false =>
      cases h2 : startsWithP (pstrip line) "# " with
      | true =>
        cases h3 : pstrip (dropChars 2 (pstrip line)) == "Todo" with
        | true => simp [h1, h2, h3]
        | false =>
          cases h4 : pstrip (dropChars 2 (pstrip line)) == "Done" with
          | true => simp [h1, h2, h3, h4]
          | false => simp [h1, h2, h3, h4]
      | false =>
        cases h5 : startsWithP (pstrip line) "## " with
        | true => simp [h1, h2, h5]
        | false =>
          cases h6 : hasKey d ln with
          | true => simp [h1, h2, h5, h6]
          | false => simp [h1, h2, h5, h6]

theorem foldl_parseLine_factor :
    ∀ (lines : List String) (t d a : Section) (c : Cursor) (ln : String)
      (w : List Warn),
      List.foldl parseLine ⟨t, d, a, c, ln, w⟩ lines =
        { List.foldl parseLine ⟨t, d, a, c, ln, []⟩ lines with
          warnings := w ++ (List.foldl parseLine ⟨t, d, a, c, ln, []⟩ lines).warnings } := by
  intro lines
  induction lines with
  | nil =>
    intro t d a c ln w
    simp
  | cons l rest ih =>
    intro t d a c ln w
    simp only [List.foldl_cons]
    rw [parseLine_factor]
    rcases hP : parseLine ⟨t, d, a, c, ln, ([] : List Warn)⟩ l with ⟨t2, d2, a2, c2, ln2, w2⟩
    show List.foldl parseLine ⟨t2, d2, a2, c2, ln2, w ++ w2⟩ rest = _
    rw [ih t2 d2 a2 c2 ln2 (w ++ w2), ih t2 d2 a2 c2 ln2 w2]
    simp [List.append_assoc]

theorem curSection_anon {st : ParseState} (h : st.cursor = .anon) :
    curSection st = st.anonSec := by
  cases st with
  | mk t d a c ln w =>
    dsimp only at h
    subst h
    rfl

theorem setCurSection_anon {st : ParseState} (h : st.cursor = .anon) (s : Section) :
    setCurSection st s = { st with anonSec := s } := by
  cases st with
  | mk t d a c ln w =>
    dsimp only at h
    subst h
    rfl

theorem foldl_anonTasks {ts : List String}
    (hts : ∀ t ∈ ts, cleanStr t ∧ t.data.head! ≠ '#') :
    ∀ st : ParseState, st.cursor = .anon →
      hasKey st.anonSec st.listName = true →
      ∃ A, List.foldl parseLine st ts = { st with anonSec := A } ∧
        hasKey A st.listName = true := by
  induction ts with
  | nil =>
    intro st hc hk
    exact ⟨st.anonSec, rfl, hk⟩
  | cons t ts ih =>
    intro st hc hk
    simp only [List.foldl_cons]
    rw [parseLine_task_append st (hts t (by simp)).1 (hts t (by simp)).2
      (by rw [curSection_anon hc]; exact hk)]
    rw [curSection_anon hc, setCurSection_anon hc]
    obtain ⟨A, hA, hkA⟩ := ih (fun x hx => hts x (by simp [hx]))
      { st with anonSec := appendTask st.anonSec st.listName (taskOf t) }
      (by dsimp only; exact hc)
      (by dsimp only; rw [hasKey_appendTask]; exact hk)
    exact ⟨A, hA, hkA⟩

theorem foldl_anonLines {bs : List (String × List String)}
    (hclean : ∀ e ∈ bs, cleanStr e.1 ∧ ∀ t ∈ e.2, cleanStr t ∧ t.data.head! ≠ '#') :
    ∀ st : ParseState, st.cursor = .anon →
      ∃ A ln, List.foldl parseLine st (anonLines bs)
        = { st with anonSec := A, listName := ln } := by
  induction bs with
  | nil =>
    intro st hc
    exact ⟨st.anonSec, st.listName, rfl⟩
  | cons e bs ih =>
    intro st hc
    have hlines : anonLines (e :: bs) = ("## " ++ e.1) :: (e.2 ++ anonLines bs) := by
      simp [anonLines]
    rw [hlines]
    simp only [List.foldl_cons]
    rw [parseLine_list_header st (hclean e (by simp)).1,
      setCurSection_anon (show ({ st with listName := e.1 } :
        ParseState).cursor = .anon from hc), curSection_anon hc,
      List.foldl_append]
    obtain ⟨A1, hA1, hk1⟩ := foldl_anonTasks
      (fun x hx => (hclean e (by simp)).2 x hx)
      { { st with listName := e.1 } with anonSec := setEntry st.anonSec e.1 [] }
      (by dsimp only; exact hc)
      (by dsimp only; rw [hasKey_setEntry]; simp)
    rw [hA1]
    obtain ⟨A2, ln2, hA2⟩ := ih (fun x hx => hclean x (by simp [hx]))
      { { { st with listName := e.1 } with anonSec := setEntry st.anonSec e.1 [] }
        with anonSec := A1 }
      (by dsimp only; exact hc)
    rw [hA2]
    exact ⟨A2, ln2, rfl⟩

theorem parseLine_simR {s1 s2 : ParseState} (hR : SimR s1 s2) (line : String) :
    SimR (parseLine s1 line) (parseLine s2 line) := by
  obtain ⟨t1, d1, a1, c1, ln1, w1⟩ := s1
  obtain ⟨t2, d2, a2, c2, ln2, w2⟩ := s2
  obtain ⟨ht, hd, hw, hc, hca, hdisj⟩ := hR
  dsimp only at ht hd hw hc hca hdisj
  subst ht
  subst hd
  subst hw
  subst hc
  cases c1 with
  | anon => exact absurd rfl hca
  | todo =>
    simp only [parseLine, curSection, setCurSection]
    by_cases h1 : ((pstrip line).data.isEmpty = true)
    · rw [if_pos h1, if_pos h1]
      exact ⟨rfl, rfl, rfl, rfl, fun hcon => Cursor.noConfusion hcon, hdisj⟩
    · rw [if_neg h1, if_neg h1]
      by_cases h2 : (startsWithP (pstrip line) "# " = true)
      · rw [if_pos h2, if_pos h2]
        by_cases h3 : ((pstrip (dropChars 2 (pstrip line)) == "Todo") = true)
        · rw [if_pos h3, if_pos h3]
          exact ⟨rfl, rfl, rfl, rfl, fun hcon => Cursor.noConfusion hcon, hdisj⟩
        · rw [if_neg h3, if_neg h3]
          by_cases h4 : ((pstrip (dropChars 2 (pstrip line)) == "Done") = true)
          · rw [if_pos h4, if_pos h4]
            exact ⟨rfl, rfl, rfl, rfl, fun hcon => Cursor.noConfusion hcon, hdisj⟩
          · rw [if_neg h4, if_neg h4]
            exact ⟨rfl, rfl, rfl, rfl, fun hcon => Cursor.noConfusion hcon, hdisj⟩
      · rw [if_neg h2, if_neg h2]
        by_cases h5 : (startsWithP (pstrip line) "## " = true)
        · rw [if_pos h5, if_pos h5]
          exact ⟨rfl, rfl, rfl, rfl, fun hcon => Cursor.noConfusion hcon, Or.inl rfl⟩
        · rw [if_neg h5, if_neg h5]
          rcases hdisj with heq | ⟨hte, hde⟩
          · subst heq
            by_cases h6 : ((!hasKey t1 ln1) = true)
            · rw [if_pos h6, if_pos h6]
              exact ⟨rfl, rfl, rfl, rfl, fun hcon => Cursor.noConfusion hcon, Or.inl rfl⟩
            · rw [if_neg h6, if_neg h6]
              exact ⟨rfl, rfl, rfl, rfl, fun hcon => Cursor.noConfusion hcon, Or.inl rfl⟩
          · subst hte
            subst hde
            have h60 : (!hasKey ([] : Section) ln1) = true := rfl
            have h61 : (!hasKey ([] : Section) ln2) = true := rfl
            rw [if_pos h60, if_pos h61]
            exact ⟨rfl, rfl, rfl, rfl, fun hcon => Cursor.noConfusion hcon, Or.inr ⟨rfl, rfl⟩⟩
  | done =>
    simp only [parseLine, curSection, setCurSection]
    by_cases h1 : ((pstrip line).data.isEmpty = true)
    · rw [if_pos h1, if_pos h1]
      exact ⟨rfl, rfl, rfl, rfl, fun hcon => Cursor.noConfusion hcon, hdisj⟩
    · rw [if_neg h1, if_neg h1]
      by_cases h2 : (startsWithP (pstrip line) "# " = true)
      · rw [if_pos h2, if_pos h2]
        by_cases h3 : ((pstrip (dropChars 2 (pstrip line)) == "Todo") = true)
        · rw [if_pos h3, if_pos h3]
          exact ⟨rfl, rfl, rfl, rfl, fun hcon => Cursor.noConfusion hcon, hdisj⟩
        · rw [if_neg h3, if_neg h3]
          by_cases h4 : ((pstrip (dropChars 2 (pstrip line)) == "Done") = true)
          · rw [if_pos h4, if_pos h4]
            exact ⟨rfl, rfl, rfl, rfl, fun hcon => Cursor.noConfusion hcon, hdisj⟩
          · rw [if_neg h4, if_neg h4]
            exact ⟨rfl, rfl, rfl, rfl, fun hcon => Cursor.noConfusion hcon, hdisj⟩
      · rw [if_neg h2, if_neg h2]
        by_cases h5 : (startsWithP (pstrip line) "## " = true)
        · rw [if_pos h5, if_pos h5]
          exact ⟨rfl, rfl, rfl, rfl, fun hcon => Cursor.noConfusion hcon, Or.inl rfl⟩
        · rw [if_neg h5, if_neg h5]
          rcases hdisj with heq | ⟨hte, hde⟩
          · subst heq
            by_cases h6 : ((!hasKey d1 ln1) = true)
            · rw [if_pos h6, if_pos h6]
              exact ⟨rfl, rfl, rfl, rfl, fun hcon => Cursor.noConfusion hcon, Or.inl rfl⟩
            · rw [if_neg h6, if_neg h6]
              exact ⟨rfl, rfl, rfl, rfl, fun hcon => Cursor.noConfusion hcon, Or.inl rfl⟩
          · subst hte
            subst hde
            have h60 : (!hasKey ([] : Section) ln1) = true := rfl
            have h61 : (!hasKey ([] : Section) ln2) = true := rfl
            rw [if_pos h60, if_pos h61]
            exact ⟨rfl, rfl, rfl, rfl, fun hcon => Cursor.noConfusion hcon, Or.inr ⟨rfl, rfl⟩⟩

theorem foldl_simR :
    ∀ (lines : List String) {s1 s2 : ParseState}, SimR s1 s2 →
      SimR (List.foldl parseLine s1 lines) (List.foldl parseLine s2 lines) := by
  intro lines
  induction lines with
  | nil =>
    intro s1 s2 h
    exact h
  | cons l rest ih =>
    intro s1 s2 h
    simp only [List.foldl_cons]
    exact ih (parseLine_simR h l)

/-! ### Claim theorems: the document model -/

/-- **C2**: for every Document Model operation (`add_task`, `order_task`,
`done_task`, `restore_task`, `done_list`, `restore_list`, `clear_done`) and
every starting state, if the operation reports a failure (nonexistent list,
out-of-range position, or aborted/declined resolution or confirmation),
then both sections are completely unchanged — a reported failure never
leaves a partial mutation. -/
theorem claim_c2_failure_no_mutation (st : TMState) (op : Op)
    (h : isFailure (runOp st op).2 = true) : (runOp st op).1 = st := by
  cases op <;>
    simp only [runOp, add_task, order_task, done_task, restore_task, done_list,
      restore_list, clear_done_list, move_task, move_list, isFailure] at h ⊢ <;>
    (repeat' split at h) <;> simp_all

/-- Witness for C2 at a concrete failing input: `done_task` on a list
that does not exist reports a failure and leaves the state unchanged. -/
theorem claim_c2_failure_no_mutation_witness :
    isFailure (runOp ⟨[("Work", ["A"])], []⟩ (.doneTask "Nope" 1)).2 = true ∧
    (runOp ⟨[("Work", ["A"])], []⟩ (.doneTask "Nope" 1)).1 = ⟨[("Work", ["A"])], []⟩ :=
  ⟨by decide, claim_c2_failure_no_mutation ⟨[("Work", ["A"])], []⟩ (.doneTask "Nope" 1)
    (by decide)⟩

/-- **C3**: for a Todo list whose (per the data model, non-empty) name is
given exactly and has length `len`, `order_task(list, old, new)` with `old`
or `new` outside `[1, len]` mutates nothing and reports the specific
offending bound: the old position when it is the invalid one, otherwise
the new position. -/
theorem claim_c3_order_task_bounds (st : TMState) (r : Resolver) (name : String)
    (old_position new_position : Int)
    (hname : name ≠ "")
    (hmem : hasKey st.todoLists name = true)
    (hbad : validate_task_number old_position (getD st.todoLists name).length = false ∨
      validate_task_number new_position (getD st.todoLists name).length = false) :
    order_task st r name old_position new_position =
      (st, if validate_task_number old_position (getD st.todoLists name).length
        then Outcome.invalidNewTaskNumber new_position
        else Outcome.invalidTaskNumber old_position) := by
  have hv : check_list_name st.todoLists r name true = name := by
    simp [check_list_name, hmem]
  have hne : (name == "") = false := by simp [hname]
  cases hvo : validate_task_number old_position (getD st.todoLists name).length with
  | false => simp [order_task, hv, hne, hvo]
  | true =>
    have hbn : validate_task_number new_position (getD st.todoLists name).length = false := by
      rcases hbad with hb | hb
      · rw [hvo] at hb; cases hb
      · exact hb
    simp [order_task, hv, hne, hvo, hbn]

/-- Witness for C3: on Todo `Work = ["A", "B"]`, `order_task("Work", 5, 1)`
reports the old bound and `order_task("Work", 1, 0)` the new bound, with no
mutation. -/
theorem claim_c3_order_task_bounds_witness :
    order_task ⟨[("Work", ["A", "B"])], []⟩ ⟨"", false⟩ "Work" 5 1 =
      (⟨[("Work", ["A", "B"])], []⟩, .invalidTaskNumber 5) ∧
    order_task ⟨[("Work", ["A", "B"])], []⟩ ⟨"", false⟩ "Work" 1 0 =
      (⟨[("Work", ["A", "B"])], []⟩, .invalidNewTaskNumber 0) := by
  constructor
  · rw [claim_c3_order_task_bounds ⟨[("Work", ["A", "B"])], []⟩ ⟨"", false⟩ "Work" 5 1
      (by decide) (by decide) (Or.inl (by decide))]
    decide
  · rw [claim_c3_order_task_bounds ⟨[("Work", ["A", "B"])], []⟩ ⟨"", false⟩ "Work" 1 0
      (by decide) (by decide) (Or.inr (by decide))]
    decide

/-- **C4**: starting from Todo `Work = ["A", "B", "C"]`,
`order_task("Work", 3, 1)` yields `["C", "A", "B"]`, and `done_task("Work", 2)`
on that result moves `"A"` to `Done["Work"]`, leaving Todo `Work = ["C", "B"]`
and Done `Work = ["A"]`. -/
theorem claim_c4_scenario :
    order_task ⟨[("Work", ["A", "B", "C"])], []⟩ ⟨"", false⟩ "Work" 3 1 =
      (⟨[("Work", ["C", "A", "B"])], []⟩, .success) ∧
    done_task (order_task ⟨[("Work", ["A", "B", "C"])], []⟩ ⟨"", false⟩ "Work" 3 1).1
        "Work" 2 =
      (⟨[("Work", ["C", "B"])], [("Work", ["A"])]⟩, .success) := by
  decide

/-- Counterexample to **C5** as stated: on Todo `W = ["A", "B"]` (two tasks,
so not a singleton list), `done_task("W", 2)` followed by
`restore_task("W", 1)` (position 1 being the end of Done `W`, whose length
is 1) puts `"B"` back at its original index 2 — the original index is
restored although the task was not the only one in the list. -/
theorem claim_c5_counterexample :
    (done_task ⟨[("W", ["A", "B"])], []⟩ "W" 2).2 = .success ∧
    (getD (done_task ⟨[("W", ["A", "B"])], []⟩ "W" 2).1.doneLists "W").length = 1 ∧
    (restore_task (done_task ⟨[("W", ["A", "B"])], []⟩ "W" 2).1 "W" 1).2 = .success ∧
    (restore_task (done_task ⟨[("W", ["A", "B"])], []⟩ "W" 2).1 "W" 1).1.todoLists
      = [("W", ["A", "B"])] := by
  decide

/-- **C5** (amended): `done_task(L, p)` followed by `restore_task(L, q)`
with `q` the end of Done `L` succeeds and returns the task to Todo `L`,
appended at the end; the original index is not restored in general, but it
is restored whenever the task was the last one of the list (`p = len`), in
particular (not only) when it was the only task. -/
theorem claim_c5_amended (st : TMState) (L : String) (p : Int)
    (hmem : hasKey st.todoLists L = true)
    (hp : 1 ≤ p ∧ p ≤ ((getD st.todoLists L).length : Int)) :
    (done_task st L p).2 = .success ∧
    getD (done_task st L p).1.doneLists L
      = getD st.doneLists L ++ [(getD st.todoLists L).getD (p - 1).toNat ""] ∧
    (restore_task (done_task st L p).1 L
        ((getD (done_task st L p).1.doneLists L).length : Int)).2 = .success ∧
    getD (restore_task (done_task st L p).1 L
        ((getD (done_task st L p).1.doneLists L).length : Int)).1.todoLists L
      = (getD st.todoLists L).eraseIdx (p - 1).toNat
          ++ [(getD st.todoLists L).getD (p - 1).toNat ""] ∧
    (p = ((getD st.todoLists L).length : Int) →
      getD (restore_task (done_task st L p).1 L
        ((getD (done_task st L p).1.doneLists L).length : Int)).1.todoLists L
      = getD st.todoLists L) := by
  have hval : validate_task_number p (getD st.todoLists L).length = true := by
    simp only [validate_task_number, decide_eq_true_eq]
    exact hp
  have h1 := done_task_success hmem hval
  have hDone1 : getD (done_task st L p).1.doneLists L
      = getD st.doneLists L ++ [(getD st.todoLists L).getD (p - 1).toNat ""] := by
    rw [h1]
    cases hd : hasKey st.doneLists L with
    | true => simp [hd, getD_appendTask_self hd]
    | false => simp [hd, getD_setEntry_self, getD_of_hasKey_eq_false hd]
  have hDoneKey : hasKey (done_task st L p).1.doneLists L = true := by
    rw [h1]
    cases hd : hasKey st.doneLists L with
    | true => simp [hd, hasKey_appendTask]
    | false => simp [hd, hasKey_setEntry]
  have hTodoKey : hasKey (done_task st L p).1.todoLists L = true := by
    rw [h1]; simp [hasKey_setEntry]
  have hTodo1 : getD (done_task st L p).1.todoLists L
      = (getD st.todoLists L).eraseIdx (p - 1).toNat := by
    rw [h1]; simp [getD_setEntry_self]
  have hqlen : (getD (done_task st L p).1.doneLists L).length
      = (getD st.doneLists L).length + 1 := by
    rw [hDone1]; simp
  have hqval : validate_task_number
      ((getD (done_task st L p).1.doneLists L).length : Int)
      (getD (done_task st L p).1.doneLists L).length = true := by
    simp only [validate_task_number, decide_eq_true_eq, hqlen]
    constructor <;> omega
  have hqidx : (((getD (done_task st L p).1.doneLists L).length : Int) - 1).toNat
      = (getD st.doneLists L).length := by
    rw [hqlen]; omega
  have htask2 : (getD (done_task st L p).1.doneLists L).getD
      ((((getD (done_task st L p).1.doneLists L).length : Int)) - 1).toNat ""
      = (getD st.todoLists L).getD (p - 1).toNat "" := by
    rw [hqidx, hDone1, getD_concat_length]
  have herase2 : (getD (done_task st L p).1.doneLists L).eraseIdx
      ((((getD (done_task st L p).1.doneLists L).length : Int)) - 1).toNat
      = getD st.doneLists L := by
    rw [hqidx, hDone1, eraseIdx_concat_length]
  have h2 := restore_task_success hDoneKey hqval
  refine ⟨by rw [h1], hDone1, by rw [h2], ?_, ?_⟩
  · rw [h2]
    dsimp only
    rw [htask2, hTodoKey, if_pos rfl, getD_appendTask_self hTodoKey, hTodo1]
  · intro hplen
    rw [h2]
    dsimp only
    rw [htask2, hTodoKey, if_pos rfl, getD_appendTask_self hTodoKey, hTodo1]
    have hlen1 : 1 ≤ (getD st.todoLists L).length := by omega
    have hidx : (p - 1).toNat = (getD st.todoLists L).length - 1 := by omega
    rw [hidx]
    refine eraseIdx_concat_getD (getD st.todoLists L) "" ?_
    intro hnil
    rw [hnil] at hlen1
    simp at hlen1

/-- Witness for C5 (amended) at Todo `W = ["A", "B", "C"]`, `p = 1`. -/
theorem claim_c5_amended_witness :
    (done_task ⟨[("W", ["A", "B", "C"])], []⟩ "W" 1).2 = .success ∧
    getD (restore_task (done_task ⟨[("W", ["A", "B", "C"])], []⟩ "W" 1).1 "W"
      ((getD (done_task ⟨[("W", ["A", "B", "C"])], []⟩ "W" 1).1.doneLists "W").length
        : Int)).1.todoLists "W" = ["B", "C", "A"] := by
  have h := claim_c5_amended ⟨[("W", ["A", "B", "C"])], []⟩ "W" 1 (by decide)
    ⟨by decide, by decide⟩
  refine ⟨h.1, ?_⟩
  rw [h.2.2.2.1]
  decide

/-- **C6**: `done_list` and `restore_list` move the whole named list between
sections: on success the full task sequence is removed from the source
section and installed in the target with its order intact, overwriting any
previous entry of that name there; if the name is missing from the source
section, nothing is mutated and the failure is reported. -/
theorem claim_c6_move_list (st : TMState) (L : String) :
    done_list st L =
      (if hasKey st.todoLists L then
        (⟨eraseKey st.todoLists L, setEntry st.doneLists L (getD st.todoLists L)⟩,
          Outcome.success)
       else (st, .noSuchList)) ∧
    restore_list st L =
      (if hasKey st.doneLists L then
        (⟨setEntry st.todoLists L (getD st.doneLists L), eraseKey st.doneLists L⟩,
          Outcome.success)
       else (st, .noSuchList)) ∧
    getD (setEntry st.doneLists L (getD st.todoLists L)) L = getD st.todoLists L ∧
    hasKey (eraseKey st.todoLists L) L = false ∧
    getD (setEntry st.todoLists L (getD st.doneLists L)) L = getD st.doneLists L ∧
    hasKey (eraseKey st.doneLists L) L = false := by
  refine ⟨?_, ?_, getD_setEntry_self _, hasKey_eraseKey_self,
    getD_setEntry_self _, hasKey_eraseKey_self⟩
  · cases h : hasKey st.todoLists L <;> simp [done_list, move_list, h]
  · cases h : hasKey st.doneLists L <;> simp [restore_list, move_list, h]

/-- **C8**: `add_list(name, quiet)` creates an empty list under an absent
name (appended at the end of the Todo section, Done untouched); for a
present name it is a no-op that keeps the existing content, never errors,
and reports the no-op notice exactly when `quiet` is false. -/
theorem claim_c8_add_list (st : TMState) (name : String) (quiet : Bool) :
    (hasKey st.todoLists name = true →
      add_list st name quiet = (st, if quiet then [] else [AddListMsg.noopNotice])) ∧
    (hasKey st.todoLists name = false →
      (add_list st name quiet).1.todoLists = st.todoLists ++ [(name, [])] ∧
      (add_list st name quiet).1.doneLists = st.doneLists ∧
      (add_list st name quiet).2 = if quiet then [] else [AddListMsg.added]) := by
  constructor
  · intro h; simp [add_list, h]
  · intro h; simp [add_list, h, setEntry_of_hasKey_eq_false h]

/-- Witness for C8: adding an existing name is a no-op with a notice;
adding a fresh name appends an empty list. -/
theorem claim_c8_add_list_witness :
    add_list ⟨[("A", ["t"])], []⟩ "A" false =
      (⟨[("A", ["t"])], []⟩, if false then [] else [AddListMsg.noopNotice]) ∧
    (add_list ⟨[("A", ["t"])], []⟩ "B" true).1.todoLists
      = [("A", ["t"])] ++ [("B", [])] :=
  ⟨(claim_c8_add_list ⟨[("A", ["t"])], []⟩ "A" false).1 (by decide),
   ((claim_c8_add_list ⟨[("A", ["t"])], []⟩ "B" true).2 (by decide)).1⟩

/-- **C10**: `has_list(name, section)` with any section argument other than
the exact strings `"todo"` and `"done"` (the comparison is case-sensitive)
tests membership in either section; with `"todo"` or `"done"` it consults
only that section.  It is a pure lookup: by its type it returns only a
`Bool` and cannot mutate the state. -/
theorem claim_c10_has_list (st : TMState) (name section_name : String) :
    (section_name ≠ "todo" → section_name ≠ "done" →
      (has_list st name section_name = true ↔
        name ∈ keysOf st.todoLists ∨ name ∈ keysOf st.doneLists)) ∧
    (has_list st name "todo" = true ↔ name ∈ keysOf st.todoLists) ∧
    (has_list st name "done" = true ↔ name ∈ keysOf st.doneLists) := by
  have hdt : ("done" == "todo") = false := by decide
  refine ⟨fun h1 h2 => ?_, ?_, ?_⟩
  · have e1 : (section_name == "todo") = false := by simp [h1]
    have e2 : (section_name == "done") = false := by simp [h2]
    simp [has_list, e1, e2, hasKey_iff_mem_keys]
  · simp [has_list, hasKey_iff_mem_keys]
  · simp [has_list, hdt, hasKey_iff_mem_keys]

/-- Witness for C10 with the non-reserved section argument `"Todo"`
(case-sensitive miss) and a name present only in Done. -/
theorem claim_c10_has_list_witness :
    (has_list ⟨[("A", [])], [("B", [])]⟩ "B" "Todo" = true ↔
      "B" ∈ keysOf [("A", [])] ∨ "B" ∈ keysOf [("B", [])]) ∧
    (has_list ⟨[("A", [])], [("B", [])]⟩ "B" "todo" = true ↔
      "B" ∈ keysOf [("A", [])]) :=
  ⟨(claim_c10_has_list ⟨[("A", [])], [("B", [])]⟩ "B" "Todo").1 (by decide) (by decide),
   (claim_c10_has_list ⟨[("A", [])], [("B", [])]⟩ "B" "Todo").2.1⟩

/-! ### Claim theorems: the codec -/

/-- Counterexample to **C1** as stated: the round-trip is not the identity
for arbitrary task text.  The task `"A "` (trailing space) serializes to the
line `1. A `, which the reader strips, so it parses back as `"A"`. -/
theorem claim_c1_counterexample :
    parse_file (write_file [("L", ["A "])] []) = ⟨[("L", ["A"])], [], []⟩ ∧
    parse_file (write_file [("L", ["A "])] []) ≠
      ⟨[("L", ["A "])], [], []⟩ := by
  decide

/-- **C1** (amended): for every model whose list names and task texts are
non-empty, have no leading or trailing whitespace, contain no line breaks,
and are ASCII (and whose list names are unique per section, as dict keys
are), parsing the serialized model reproduces exactly the same list names,
task text, and order in both sections, with no warnings. -/
theorem claim_c1_amended (T D : Section)
    (hT : cleanSection T) (hD : cleanSection D) :
    parse_file (write_file T D) = ⟨T, D, []⟩ := by
  obtain ⟨hTn, hTc⟩ := hT
  obtain ⟨hDn, hDc⟩ := hD
  obtain ⟨ln1, h1, -⟩ := foldl_sectionLines hTc hTn
    (⟨[], [], [], .todo, "", []⟩ : ParseState) (fun e he => rfl)
  obtain ⟨ln2, h2, -⟩ := foldl_sectionLines hDc hDn
    (⟨T, [], [], .done, ln1, []⟩ : ParseState) (fun e he => rfl)
  have ha : List.foldl parseLine initState ["# Todo", ""]
      = (⟨[], [], [], .todo, "", []⟩ : ParseState) := rfl
  have hb : setCurSection { (⟨[], [], [], .todo, "", []⟩ : ParseState) with
      listName := ln1 } (curSection (⟨[], [], [], .todo, "", []⟩ : ParseState) ++ T)
      = (⟨T, [], [], .todo, ln1, []⟩ : ParseState) := rfl
  have hc : List.foldl parseLine (⟨T, [], [], .todo, ln1, []⟩ : ParseState)
      ["# Done", ""] = (⟨T, [], [], .done, ln1, []⟩ : ParseState) := rfl
  show ParseResult.mk
    (List.foldl parseLine initState (write_file T D)).todoLists
    (List.foldl parseLine initState (write_file T D)).doneLists
    (List.foldl parseLine initState (write_file T D)).warnings = ⟨T, D, []⟩
  have hlines : write_file T D
      = ((["# Todo", ""] ++ sectionLines T) ++ ["# Done", ""]) ++ sectionLines D := by
    simp [write_file]
  rw [hlines, List.foldl_append, List.foldl_append, List.foldl_append, ha, h1, hb,
    hc, h2]
  rfl

/-- Witness for C1 (amended) on a two-list model with a shared name across
sections. -/
theorem claim_c1_amended_witness :
    cleanSection [("Work", ["A", "B"]), ("Home", ["x y"])] ∧
    cleanSection [("Work", ["old task"])] ∧
    parse_file (write_file [("Work", ["A", "B"]), ("Home", ["x y"])]
        [("Work", ["old task"])]) =
      ⟨[("Work", ["A", "B"]), ("Home", ["x y"])], [("Work", ["old task"])], []⟩ :=
  ⟨by decide, by decide,
    claim_c1_amended _ _ (by decide) (by decide)⟩


/-- **C7**: a non-blank task line inside a recognized section, before any
list has been opened there (the current `list_name` is not a key of the
current section), is dropped with an orphan-task warning: the parse of the
file with that line is the parse of the file without it, except that the
warning is recorded — parsing continues over the remaining lines and never
fails hard. -/
theorem claim_c7_orphan_warning (pre : List String) (t : String) (rest : List String)
    (hclean : cleanStr t) (hhash : t.data.head! ≠ '#')
    (_hcursor : (List.foldl parseLine initState pre).cursor ≠ Cursor.anon)
    (hkey : hasKey (curSection (List.foldl parseLine initState pre))
      (List.foldl parseLine initState pre).listName = false) :
    (parse_file (pre ++ t :: rest)).todoLists = (parse_file (pre ++ rest)).todoLists ∧
    (parse_file (pre ++ t :: rest)).doneLists = (parse_file (pre ++ rest)).doneLists ∧
    Warn.orphanTask (taskOf t) ∈ (parse_file (pre ++ t :: rest)).warnings := by
  rcases hP : List.foldl parseLine initState pre with ⟨pt, pd, pa, pc, pln, pw⟩
  rw [hP] at hkey
  have horph := parseLine_orphan (⟨pt, pd, pa, pc, pln, pw⟩ : ParseState) hclean hhash hkey
  simp only [parse_file]
  rw [List.foldl_append, List.foldl_append, hP]
  simp only [List.foldl_cons]
  rw [horph]
  dsimp only
  rw [foldl_parseLine_factor rest pt pd pa pc pln (pw ++ [Warn.orphanTask (taskOf t)]),
    foldl_parseLine_factor rest pt pd pa pc pln pw]
  dsimp only
  refine ⟨rfl, rfl, ?_⟩
  simp

/-- Witness for C7: the line `stray` right after `# Todo` is dropped with a
warning, and the rest of the file parses as if it were absent. -/
theorem claim_c7_orphan_warning_witness :
    (parse_file (["# Todo"] ++ "stray" :: ["## L", "1. a"])).todoLists
      = (parse_file (["# Todo"] ++ ["## L", "1. a"])).todoLists ∧
    (parse_file (["# Todo"] ++ "stray" :: ["## L", "1. a"])).doneLists
      = (parse_file (["# Todo"] ++ ["## L", "1. a"])).doneLists ∧
    Warn.orphanTask (taskOf "stray")
      ∈ (parse_file (["# Todo"] ++ "stray" :: ["## L", "1. a"])).warnings :=
  claim_c7_orphan_warning ["# Todo"] "stray" ["## L", "1. a"]
    (by decide) (by decide) (by decide) (by decide)

/-- **C9**: all lines preceding the first recognized section header —
`## name` list headers and the task lines attached to them — contribute
nothing to the result of `parse_file`: they accumulate in the discarded
anonymous section, no warning is issued for them, and the parse result is
exactly that of the file without the prefix. -/
theorem claim_c9_anon_prefix (bs : List (String × List String)) (hdr : String)
    (rest : List String)
    (hhdr : hdr = "# Todo" ∨ hdr = "# Done")
    (hclean : ∀ e ∈ bs, cleanStr e.1 ∧ ∀ t ∈ e.2, cleanStr t ∧ t.data.head! ≠ '#') :
    parse_file (anonLines bs ++ hdr :: rest) = parse_file (hdr :: rest) := by
  obtain ⟨A, ln, hA⟩ := foldl_anonLines hclean initState rfl
  have hsim : SimR
      (List.foldl parseLine
        (parseLine (List.foldl parseLine initState (anonLines bs)) hdr) rest)
      (List.foldl parseLine (parseLine initState hdr) rest) := by
    apply foldl_simR
    rw [hA]
    rcases hhdr with rfl | rfl
    · rw [parseLine_todo_header, parseLine_todo_header]
      exact ⟨rfl, rfl, rfl, rfl, fun hcon => Cursor.noConfusion hcon,
        Or.inr ⟨rfl, rfl⟩⟩
    · rw [parseLine_done_header, parseLine_done_header]
      exact ⟨rfl, rfl, rfl, rfl, fun hcon => Cursor.noConfusion hcon,
        Or.inr ⟨rfl, rfl⟩⟩
  obtain ⟨ht, hd, hw, -, -, -⟩ := hsim
  simp only [parse_file, List.foldl_append, List.foldl_cons]
  rw [ht, hd, hw]

/-- Witness for C9: a `## Ghost` block before `# Todo` changes nothing. -/
theorem claim_c9_anon_prefix_witness :
    parse_file (anonLines [("Ghost", ["g1"])] ++ "# Todo" :: ["## L", "1. a"])
      = parse_file ("# Todo" :: ["## L", "1. a"]) :=
  claim_c9_anon_prefix [("Ghost", ["g1"])] "# Todo" ["## L", "1. a"]
    (Or.inl rfl) (by decide)

end TodoSpec
